import Mathlib

/-!
Shallow embedding of `toasty/norm.py`: data normalization and stretch
("warp") functions mapping raw numeric arrays to unsigned 8-bit display
values.  Arrays are modelled as `List ℝ`; numpy element-wise operations
become `List.map` of scalar functions; `np.clip` becomes `clip` below;
the `warpers` dict becomes an association list, and `normalize` returns
`Except String (List ℕ)` (the single `ValueError` becomes the `error`
branch).  The final `astype(np.uint8)` truncates toward zero; after the
clip to `[0, 255]` values are nonnegative, so it is `Int.floor` followed
by `Int.toNat`.
-/

namespace ToastyNorm

/-- `np.clip(v, lo, hi)`: `minimum(hi, maximum(lo, v))`. -/
noncomputable def clip (v lo hi : ℝ) : ℝ :=
  min (max v lo) hi

/-- `norm(x, vmin, vmax)` (scalar form): linearly scale data between
`[vmin, vmax]` to `[0, 1]`, clipping outliers.
Source: `result = (x - 1.0 * vmin); result /= (vmax - vmin); clip(result, 0, 1)`. -/
noncomputable def norm (x vmin vmax : ℝ) : ℝ :=
  clip ((x - 1.0 * vmin) / (vmax - vmin)) 0 1

/-- `cscale(x, bias, contrast)` (scalar form): apply bias and contrast scaling.
Source: subtract `bias`, multiply by `contrast`, add `0.5`, clip to `[0, 1]`. -/
noncomputable def cscale (x bias contrast : ℝ) : ℝ :=
  clip ((x - bias) * contrast + 0.5) 0 1

/-- `linear_warp(x, vmin, vmax, bias, contrast)`. -/
noncomputable def linear_warp (x vmin vmax bias contrast : ℝ) : ℝ :=
  cscale (norm x vmin vmax) bias contrast

/-- `log_warp(x, vmin, vmax, bias, contrast, exp=1000.0)`.  The source also
computes a boolean mask `black = x < vmin` that is never used afterwards
(dead code); it has no effect on the returned value and is omitted. -/
noncomputable def log_warp (x vmin vmax bias contrast e : ℝ) : ℝ :=
  let x1 := norm x vmin vmax
  let x2 := e * x1
  let x3 := x2 + 1.001
  let x4 := Real.log x3
  let x5 := x4 / Real.log (e + 1.0)
  cscale x5 bias contrast

/-- `pow_warp(x, vmin, vmax, bias, contrast, exp=1000.0)`:
`np.power(exp, x)` is real exponentiation `e ^ x`. -/
noncomputable def pow_warp (x vmin vmax bias contrast e : ℝ) : ℝ :=
  let x1 := norm x vmin vmax
  let x2 := e ^ x1
  let x3 := x2 - 1
  let x4 := x3 / (e - 1)
  cscale x4 bias contrast

/-- `sqrt_warp(x, vmin, vmax, bias, contrast)`. -/
noncomputable def sqrt_warp (x vmin vmax bias contrast : ℝ) : ℝ :=
  cscale (Real.sqrt (norm x vmin vmax)) bias contrast

/-- `squared_warp(x, vmin, vmax, bias, contrast)`: `np.power(x, 2)`. -/
noncomputable def squared_warp (x vmin vmax bias contrast : ℝ) : ℝ :=
  cscale ((norm x vmin vmax) ^ (2 : ℕ)) bias contrast

/-- `asinh_warp(x, vmin, vmax, bias, contrast)`: `arcsinh(x * 10) / 3`. -/
noncomputable def asinh_warp (x vmin vmax bias contrast : ℝ) : ℝ :=
  cscale (Real.arsinh (norm x vmin vmax * 10) / 3) bias contrast

/-- `sinh_warp(x, vmin, vmax, bias, contrast)`: `sinh(x * 3) / 10`. -/
noncomputable def sinh_warp (x vmin vmax bias contrast : ℝ) : ℝ :=
  cscale (Real.sinh (norm x vmin vmax * 3) / 10) bias contrast

/-- The `warpers` dict, in insertion order.  In `normalize` each warp is
called with five arguments, so `log` and `power` get their default
`exp = 1000.0`. -/
noncomputable def warpers : List (String × (ℝ → ℝ → ℝ → ℝ → ℝ → ℝ)) :=
  [("linear", linear_warp),
   ("log", fun x vmin vmax bias contrast => log_warp x vmin vmax bias contrast 1000.0),
   ("sqrt", sqrt_warp),
   ("power", fun x vmin vmax bias contrast => pow_warp x vmin vmax bias contrast 1000.0),
   ("squared", squared_warp),
   ("arcsinh", asinh_warp),
   ("sinh", sinh_warp)]

/-- The keys of `warpers`, as a computable list of strings. -/
def validStretches : List String :=
  ["linear", "log", "sqrt", "power", "squared", "arcsinh", "sinh"]

/-- The `ValueError` message
`"Invalid stretch option %s. Valid options are %s" % (stretch, warpers.keys())`.
The rendering of `warpers.keys()` is modelled as the comma-separated key list
(Python additionally prints surrounding brackets and quote marks). -/
def errMsg (stretch : String) : String :=
  "Invalid stretch option " ++ stretch ++ ". Valid options are " ++
    String.intercalate ", " validStretches

/-- `lo = min(vmin, vmax)` as computed by the dispatcher. -/
noncomputable def dispatchLo (vmin vmax : ℝ) : ℝ :=
  min vmin vmax

/-- `hi = max(vmin, vmax)` as computed by the dispatcher. -/
noncomputable def dispatchHi (vmin vmax : ℝ) : ℝ :=
  max vmin vmax

/-- The final stage of `normalize`: multiply by 255, `np.clip(_, 0, 255)`,
`astype(np.uint8)` (truncation toward zero; values are in `[0, 255]` after
the clip, so this is the floor). -/
noncomputable def quantize (r : ℝ) : ℕ :=
  (Int.floor (clip (255 * r) 0 255)).toNat

/-- `normalize(value, vmin, vmax, bias=.5, contrast=1, stretch="linear")`:
the dispatcher.  Defaults are `bias = 0.5`, `contrast = 1`,
`stretch = "linear"`. -/
noncomputable def normalize (value : List ℝ) (vmin vmax bias contrast : ℝ)
    (stretch : String) : Except String (List ℕ) :=
  let inverted := vmax ≤ vmin
  let hi := dispatchHi vmin vmax
  let lo := dispatchLo vmin vmax
  match warpers.lookup stretch with
  | none => Except.error (errMsg stretch)
  | some warp =>
    let result := value.map (fun v => warp v lo hi bias contrast)
    let result := if inverted then result.map (fun r => 1 - r) else result
    Except.ok (result.map quantize)

/-- State-passing variant of `normalize`: the second component is the
caller's buffer after the call.  In the source, the invalid-stretch
`ValueError` is raised before the warp is invoked, and `norm` begins with
`result = (x - 1.0 * vmin)`, which allocates a fresh array, so the
caller's buffer is returned unchanged on every path; on the error path in
particular no arithmetic has touched it. -/
noncomputable def normalizeState (value : List ℝ) (vmin vmax bias contrast : ℝ)
    (stretch : String) : Except String (List ℕ) × List ℝ :=
  (normalize value vmin vmax bias contrast stretch, value)

/-- `s` contains `t` as a substring. -/
def containsStr (s t : String) : Prop :=
  ∃ l r : String, s = l ++ t ++ r

/-- Modelled from the spec: the log stretch formula
`ln(exp * t + 1.001) / ln(exp + 1)` applied to the normalized value `t`. -/
noncomputable def logStretchSpec (t e : ℝ) : ℝ :=
  Real.log (e * t + 1.001) / Real.log (e + 1)

end ToastyNorm

namespace ToastyNorm

theorem clip_mem {lo hi : ℝ} (v : ℝ) (h : lo ≤ hi) : clip v lo hi ∈ Set.Icc lo hi :=
  ⟨le_min (le_trans (le_max_right v lo) (le_refl _)) h |>.trans_eq rfl, min_le_right _ _⟩

theorem clip_eq_self {lo hi : ℝ} (v : ℝ) (h1 : lo ≤ v) (h2 : v ≤ hi) : clip v lo hi = v := by
  unfold clip
  rw [max_eq_left h1, min_eq_left h2]

theorem cscale_mem (x b c : ℝ) : cscale x b c ∈ Set.Icc (0:ℝ) 1 :=
  clip_mem _ zero_le_one

theorem norm_mem (x vmin vmax : ℝ) : norm x vmin vmax ∈ Set.Icc (0:ℝ) 1 :=
  clip_mem _ zero_le_one

/-- C3: for `vmin < vmax`, `norm` returns `clip((x - vmin)/(vmax - vmin), 0, 1)`;
its output lies in `[0,1]`; inputs `≤ vmin` map to `0` and inputs `≥ vmax` map to `1`. -/
theorem norm_clip_spec (x vmin vmax : ℝ) (h : vmin < vmax) :
    norm x vmin vmax = clip ((x - vmin) / (vmax - vmin)) 0 1 ∧
    norm x vmin vmax ∈ Set.Icc (0:ℝ) 1 ∧
    (x ≤ vmin → norm x vmin vmax = 0) ∧
    (vmax ≤ x → norm x vmin vmax = 1) := by
  have hd : (0:ℝ) < vmax - vmin := by linarith
  refine ⟨by norm_num [norm], norm_mem x vmin vmax, ?_, ?_⟩
  · intro hx
    have ht : (x - 1.0 * vmin) / (vmax - vmin) ≤ 0 :=
      div_nonpos_iff.mpr (Or.inr ⟨by norm_num; linarith, le_of_lt hd⟩)
    unfold norm clip
    rw [max_eq_right ht, min_eq_left zero_le_one]
  · intro hx
    have ht : (1:ℝ) ≤ (x - 1.0 * vmin) / (vmax - vmin) := by
      rw [le_div_iff₀ hd]; norm_num; linarith
    unfold norm clip
    rw [max_eq_left (le_trans zero_le_one ht), min_eq_right ht]

/-- C3 witness. -/
theorem norm_clip_spec_witness : (0:ℝ) < 1 ∧ norm 2 0 1 = 1 :=
  ⟨zero_lt_one, (norm_clip_spec 2 0 1 zero_lt_one).2.2.2 (by norm_num)⟩

/-- C8: `cscale` computes `clip((x - bias) * contrast + 0.5, 0, 1)` element-wise,
and with `bias = 0.5`, `contrast = 1` it is the identity on `[0, 1]`. -/
theorem cscale_clip_spec :
    (∀ x b c : ℝ, cscale x b c = clip ((x - b) * c + 0.5) 0 1) ∧
    (∀ x : ℝ, 0 ≤ x → x ≤ 1 → cscale x 0.5 1 = x) := by
  refine ⟨fun x b c => rfl, fun x h1 h2 => ?_⟩
  have hx : (x - 0.5) * 1 + 0.5 = x := by ring
  unfold cscale
  rw [hx]
  exact clip_eq_self x h1 h2

/-- C8 witness. -/
theorem cscale_clip_spec_witness :
    (0:ℝ) ≤ 1/2 ∧ (1/2:ℝ) ≤ 1 ∧ cscale (1/2) 0.5 1 = 1/2 :=
  ⟨by norm_num, by norm_num, cscale_clip_spec.2 (1/2) (by norm_num) (by norm_num)⟩

end ToastyNorm

namespace ToastyNorm

theorem warp_mem_all (nw : String × (ℝ → ℝ → ℝ → ℝ → ℝ → ℝ)) (hmem : nw ∈ warpers)
    (x vmin vmax bias contrast : ℝ) :
    nw.2 x vmin vmax bias contrast ∈ Set.Icc (0:ℝ) 1 := by
  simp only [warpers, List.mem_cons, List.not_mem_nil, or_false] at hmem
  rcases hmem with h | h | h | h | h | h | h <;> subst h <;>
    exact cscale_mem _ _ _

/-- C1 counterexample: at `vmin = vmax = 0` the dispatcher computes `lo = hi = 0`,
so the bounds passed to the stretch function do not satisfy `lo < hi`. -/
theorem dispatch_bounds_eq_cex : ¬ (dispatchLo (0:ℝ) 0 < dispatchHi 0 0) := by
  simp [dispatchLo, dispatchHi]

/-- C1 amended: whenever `vmin ≠ vmax`, the dispatcher's bounds
`lo = min(vmin, vmax)` and `hi = max(vmin, vmax)` satisfy `lo < hi`, so the
stretch function's precondition `vmax ≠ vmin` holds for those calls; when
`vmin = vmax` the bounds are equal and the division by a zero range is reached. -/
theorem dispatch_bounds_lt (vmin vmax : ℝ) (h : vmin ≠ vmax) :
    dispatchLo vmin vmax < dispatchHi vmin vmax :=
  min_lt_max.mpr h

/-- C1 witness. -/
theorem dispatch_bounds_lt_witness :
    (0:ℝ) ≠ 1 ∧ dispatchLo (0:ℝ) 1 < dispatchHi 0 1 :=
  ⟨by norm_num, dispatch_bounds_lt 0 1 (by norm_num)⟩

/-- C6: every stretch function in the `warpers` table, on any input whose
elements lie within `[vmin, vmax]` with `vmin < vmax`, returns a value in
`[0, 1]` (before the dispatcher's final scaling by 255). -/
theorem warpers_result_mem_Icc (nw : String × (ℝ → ℝ → ℝ → ℝ → ℝ → ℝ))
    (hmem : nw ∈ warpers) (x vmin vmax bias contrast : ℝ)
    (h1 : vmin < vmax) (h2 : vmin ≤ x) (h3 : x ≤ vmax) :
    nw.2 x vmin vmax bias contrast ∈ Set.Icc (0:ℝ) 1 :=
  warp_mem_all nw hmem x vmin vmax bias contrast

/-- C6 witness. -/
theorem warpers_result_mem_Icc_witness :
    ("linear", linear_warp) ∈ warpers ∧
    ((0:ℝ) < 1 ∧ (0:ℝ) ≤ (1/2:ℝ) ∧ (1/2:ℝ) ≤ 1) ∧
    linear_warp (1/2) 0 1 (1/2) 1 ∈ Set.Icc (0:ℝ) 1 := by
  have hm : ("linear", linear_warp) ∈ warpers := by
    unfold warpers
    exact List.mem_cons_self _ _
  exact ⟨hm, ⟨by norm_num, by norm_num, by norm_num⟩,
    warpers_result_mem_Icc ("linear", linear_warp) hm (1/2) 0 1 (1/2) 1
      (by norm_num) (by norm_num) (by norm_num)⟩

/-- C7: the log stretch computes `ln(exp * t + 1.001) / ln(exp + 1)` on the
normalized value `t` and passes the result through the contrast/bias
adjuster; the table entry for `"log"` uses the default `exp = 1000`. -/
theorem log_warp_formula :
    (∀ x vmin vmax bias contrast e : ℝ,
      log_warp x vmin vmax bias contrast e =
        cscale (logStretchSpec (norm x vmin vmax) e) bias contrast) ∧
    warpers.lookup "log" =
      some (fun x vmin vmax bias contrast => log_warp x vmin vmax bias contrast 1000.0) := by
  constructor
  · intro x vmin vmax bias contrast e
    have h1 : (1.0 : ℝ) = 1 := by norm_num
    simp only [log_warp, logStretchSpec, h1]
  · rfl

end ToastyNorm

namespace ToastyNorm

theorem quantize_eq_floor {r : ℝ} (h : 0 ≤ r) (h' : r ≤ 1) :
    quantize r = (Int.floor (255 * r)).toNat := by
  unfold quantize
  rw [clip_eq_self (255 * r) (by positivity) (by linarith)]

/-- C10: on stretch results in `[0, 1]` the final quantization truncates:
the output is `⌊255 * r⌋`, the value `255` is attained only at `r = 1`,
and an intermediate value of exactly `0.5` produces `127`, not `128`. -/
theorem quantize_truncates :
    (∀ r : ℝ, 0 ≤ r → r ≤ 1 →
      quantize r = (Int.floor (255 * r)).toNat ∧ (quantize r = 255 ↔ r = 1)) ∧
    quantize (1/2 : ℝ) = 127 := by
  constructor
  · intro r h h'
    refine ⟨quantize_eq_floor h h', ?_⟩
    rw [quantize_eq_floor h h']
    constructor
    · intro he
      have h0 : (0:ℤ) ≤ Int.floor (255 * r) := Int.floor_nonneg.mpr (by positivity)
      have hf : Int.floor (255 * r) = 255 := by omega
      have h255 : ((255:ℤ) : ℝ) ≤ 255 * r := hf ▸ Int.floor_le (255 * r)
      have : (255:ℝ) ≤ 255 * r := by exact_mod_cast h255
      linarith [le_antisymm h' (by linarith : (1:ℝ) ≤ r)]
    · intro he
      subst he
      norm_num
      rfl
  · rw [quantize_eq_floor (by norm_num) (by norm_num)]
    have h127 : Int.floor ((255:ℝ) * (1/2)) = 127 := by
      rw [Int.floor_eq_iff] <;> norm_num
    rw [h127]
    rfl

/-- C10 witness. -/
theorem quantize_truncates_witness :
    ((0:ℝ) ≤ 1 ∧ (1:ℝ) ≤ 1) ∧ quantize (1:ℝ) = 255 :=
  ⟨⟨by norm_num, le_refl 1⟩,
    ((quantize_truncates.1 1 (by norm_num) (le_refl 1)).2).mpr rfl⟩

theorem warpers_lookup_eq_none {s : String} (h : s ∉ validStretches) :
    warpers.lookup s = none := by
  simp only [validStretches, List.mem_cons, List.not_mem_nil, or_false, not_or] at h
  obtain ⟨h1, h2, h3, h4, h5, h6, h7⟩ := h
  have e1 : (s == "linear") = false := beq_eq_false_iff_ne.mpr h1
  have e2 : (s == "log") = false := beq_eq_false_iff_ne.mpr h2
  have e3 : (s == "sqrt") = false := beq_eq_false_iff_ne.mpr h3
  have e4 : (s == "power") = false := beq_eq_false_iff_ne.mpr h4
  have e5 : (s == "squared") = false := beq_eq_false_iff_ne.mpr h5
  have e6 : (s == "arcsinh") = false := beq_eq_false_iff_ne.mpr h6
  have e7 : (s == "sinh") = false := beq_eq_false_iff_ne.mpr h7
  simp [warpers, List.lookup, e1, e2, e3, e4, e5, e6, e7]

theorem warpers_lookup_of_mem {s : String} (h : s ∈ validStretches) :
    ∃ w, warpers.lookup s = some w ∧ (s, w) ∈ warpers := by
  fin_cases h
  · exact ⟨linear_warp, rfl, by simp [warpers]⟩
  · exact ⟨_, rfl, by simp [warpers]⟩
  · exact ⟨sqrt_warp, rfl, by simp [warpers]⟩
  · exact ⟨_, rfl, by simp [warpers]⟩
  · exact ⟨squared_warp, rfl, by simp [warpers]⟩
  · exact ⟨asinh_warp, rfl, by simp [warpers]⟩
  · exact ⟨sinh_warp, rfl, by simp [warpers]⟩

end ToastyNorm

namespace ToastyNorm

theorem keysStr_eq :
    String.intercalate ", " validStretches =
      "linear, log, sqrt, power, squared, arcsinh, sinh" := by
  rfl

/-- C2: `normalize` returns an error if and only if the stretch name is not one
of the seven recognized names; the error message contains the offending stretch
value and every valid option name; for every numeric input with a recognized
stretch no error is raised. -/
theorem normalize_error_iff (x : List ℝ) (vmin vmax bias contrast : ℝ)
    (stretch : String) :
    ((∃ y, normalize x vmin vmax bias contrast stretch = Except.ok y) ↔
      stretch ∈ validStretches) ∧
    (stretch ∉ validStretches →
      normalize x vmin vmax bias contrast stretch = Except.error (errMsg stretch) ∧
      containsStr (errMsg stretch) stretch ∧
      ∀ name ∈ validStretches, containsStr (errMsg stretch) name) := by
  have hcontain : containsStr (errMsg stretch) stretch :=
    ⟨"Invalid stretch option ",
     ". Valid options are " ++ String.intercalate ", " validStretches,
     by simp [errMsg, String.append_assoc]⟩
  have hnames : ∀ name ∈ validStretches, containsStr (errMsg stretch) name := by
    intro name hname
    fin_cases hname
    · exact ⟨"Invalid stretch option " ++ stretch ++ ". Valid options are ",
        ", log, sqrt, power, squared, arcsinh, sinh",
        by simp [errMsg, keysStr_eq, String.append_assoc]⟩
    · exact ⟨"Invalid stretch option " ++ stretch ++ ". Valid options are linear, ",
        ", sqrt, power, squared, arcsinh, sinh",
        by simp [errMsg, keysStr_eq, String.append_assoc]⟩
    · exact ⟨"Invalid stretch option " ++ stretch ++ ". Valid options are linear, log, ",
        ", power, squared, arcsinh, sinh",
        by simp [errMsg, keysStr_eq, String.append_assoc]⟩
    · exact ⟨"Invalid stretch option " ++ stretch ++ ". Valid options are linear, log, sqrt, ",
        ", squared, arcsinh, sinh",
        by simp [errMsg, keysStr_eq, String.append_assoc]⟩
    · exact ⟨"Invalid stretch option " ++ stretch ++ ". Valid options are linear, log, sqrt, power, ",
        ", arcsinh, sinh",
        by simp [errMsg, keysStr_eq, String.append_assoc]⟩
    · exact ⟨"Invalid stretch option " ++ stretch ++ ". Valid options are linear, log, sqrt, power, squared, ",
        ", sinh",
        by simp [errMsg, keysStr_eq, String.append_assoc]⟩
    · exact ⟨"Invalid stretch option " ++ stretch ++ ". Valid options are linear, log, sqrt, power, squared, arcsinh, ",
        "",
        by simp [errMsg, keysStr_eq, String.append_assoc]⟩
  by_cases hmem : stretch ∈ validStretches
  · obtain ⟨w, hw, hwmem⟩ := warpers_lookup_of_mem hmem
    refine ⟨⟨fun _ => hmem, fun _ => ?_⟩, fun hcon => absurd hmem hcon⟩
    simp only [normalize, hw]
    exact ⟨_, rfl⟩
  · have hn := warpers_lookup_eq_none hmem
    constructor
    · constructor
      · rintro ⟨y, hy⟩
        simp [normalize, hn] at hy
      · intro h
        exact absurd h hmem
    · intro _
      exact ⟨by simp only [normalize, hn], hcontain, hnames⟩

end ToastyNorm

namespace ToastyNorm

/-- C2 witness. -/
theorem normalize_error_iff_witness :
    "bogus" ∉ validStretches ∧
    normalize [(0:ℝ)] 0 1 (1/2) 1 "bogus" = Except.error (errMsg "bogus") ∧
    containsStr (errMsg "bogus") "bogus" :=
  have hb : "bogus" ∉ validStretches := by decide
  ⟨hb, ((normalize_error_iff [(0:ℝ)] 0 1 (1/2) 1 "bogus").2 hb).1,
       ((normalize_error_iff [(0:ℝ)] 0 1 (1/2) 1 "bogus").2 hb).2.1⟩

/-- C9: with an invalid stretch name, the error is raised before any stretch
function is invoked and before any arithmetic touches the input array: in the
state-passing model the caller's buffer is returned unchanged, and the result
is the same error whatever the buffer contents. -/
theorem normalize_error_atomic (value : List ℝ) (vmin vmax bias contrast : ℝ)
    (stretch : String) (h : stretch ∉ validStretches) :
    (normalizeState value vmin vmax bias contrast stretch).2 = value ∧
    (normalizeState value vmin vmax bias contrast stretch).1 =
      Except.error (errMsg stretch) ∧
    ∀ value' : List ℝ,
      (normalizeState value' vmin vmax bias contrast stretch).1 =
        (normalizeState value vmin vmax bias contrast stretch).1 := by
  have hn := warpers_lookup_eq_none h
  refine ⟨rfl, by simp only [normalizeState, normalize, hn], fun value' => ?_⟩
  simp only [normalizeState, normalize, hn]

/-- C9 witness. -/
theorem normalize_error_atomic_witness :
    "bogus" ∉ validStretches ∧
    (normalizeState [(42:ℝ)] 0 1 (1/2) 1 "bogus").2 = [(42:ℝ)] :=
  have hb : "bogus" ∉ validStretches := by decide
  ⟨hb, (normalize_error_atomic [(42:ℝ)] 0 1 (1/2) 1 "bogus" hb).1⟩

theorem linear_warp_eval_zero : linear_warp 0 0 1 0.5 1 = 0 := by
  norm_num [linear_warp, norm, cscale, clip, min_def, max_def]

theorem linear_warp_eval_half : linear_warp 0.5 0 1 0.5 1 = 0.5 := by
  norm_num [linear_warp, norm, cscale, clip, min_def, max_def]

theorem linear_warp_eval_one : linear_warp 1 0 1 0.5 1 = 1 := by
  norm_num [linear_warp, norm, cscale, clip, min_def, max_def]

end ToastyNorm

namespace ToastyNorm

theorem quantize_zero : quantize (0:ℝ) = 0 := by
  rw [quantize_eq_floor (le_refl 0) zero_le_one]
  norm_num

theorem quantize_one : quantize (1:ℝ) = 255 := by
  rw [quantize_eq_floor zero_le_one (le_refl 1)]
  norm_num
  rfl

theorem quantize_point_five : quantize (0.5:ℝ) = 127 := by
  rw [quantize_eq_floor (by norm_num) (by norm_num)]
  have h127 : Int.floor ((255:ℝ) * 0.5) = 127 := by
    rw [Int.floor_eq_iff] <;> norm_num
  rw [h127]
  rfl

theorem normalize_linear_eval :
    normalize [0, 0.5, 1] 0 1 0.5 1 "linear" = Except.ok [0, 127, 255] := by
  have hw : warpers.lookup "linear" = some linear_warp := rfl
  have hinv : ¬ ((1:ℝ) ≤ 0) := by norm_num
  have hlo : dispatchLo (0:ℝ) 1 = 0 := by simp [dispatchLo]
  have hhi : dispatchHi (0:ℝ) 1 = 1 := by simp [dispatchHi]
  simp only [normalize, hw, List.map, if_neg hinv, hlo, hhi,
    linear_warp_eval_zero, linear_warp_eval_half, linear_warp_eval_one,
    quantize_zero, quantize_point_five, quantize_one]

/-- C4 counterexample: with default `bias = 0.5`, `contrast = 1`,
`stretch = "linear"`, `normalize([0, 0.5, 1], 0, 1)` yields `[0, 127, 255]`:
the first output element is `0`, not `127` or `128` as the claim states. -/
theorem normalize_linear_default_cex :
    normalize [0, 0.5, 1] 0 1 0.5 1 "linear" = Except.ok [0, 127, 255] ∧
    (0 : ℕ) ≠ 127 ∧ (0 : ℕ) ≠ 128 :=
  ⟨normalize_linear_eval, by decide, by decide⟩

/-- C4 amended: with default `bias = 0.5`, `contrast = 1`, `stretch = "linear"`,
`normalize` applied to `[0, 0.5, 1]` with `vmin = 0`, `vmax = 1` yields
`[0, 127, 255]`: the bias/contrast defaults make the adjuster the identity on
`[0, 1]`, and each output element equals `⌊255 * x⌋` (truncation, not
rounding). -/
theorem normalize_linear_default :
    normalize [0, 0.5, 1] 0 1 0.5 1 "linear" = Except.ok [0, 127, 255] ∧
    ([0, 127, 255] : List ℕ) =
      [(Int.floor ((255:ℝ) * 0)).toNat, (Int.floor ((255:ℝ) * 0.5)).toNat,
       (Int.floor ((255:ℝ) * 1)).toNat] := by
  refine ⟨normalize_linear_eval, ?_⟩
  have h127 : Int.floor ((255:ℝ) * 0.5) = 127 := by
    rw [Int.floor_eq_iff] <;> norm_num
  norm_num [h127]
  exact ⟨rfl, rfl⟩

end ToastyNorm

namespace ToastyNorm

theorem quantize_one_sub {t : ℝ} (h0 : 0 ≤ t) (h1 : t ≤ 1) :
    ((quantize (1 - t) : ℤ) - (255 - (quantize t : ℤ))).natAbs ≤ 1 := by
  have hb : (0:ℤ) ≤ Int.floor (255 * (1 - t)) := Int.floor_nonneg.mpr (by nlinarith)
  have ha : (0:ℤ) ≤ Int.floor (255 * t) := Int.floor_nonneg.mpr (by positivity)
  have hc : Int.floor (255 * (1 - t)) = 255 - Int.ceil (255 * t) := by
    have he : (255:ℝ) * (1 - t) = -(255 * t - ((255:ℤ):ℝ)) := by push_cast; ring
    rw [he, Int.floor_neg, Int.ceil_sub_int]
    ring
  have hA : ((quantize (1 - t) : ℤ)) = 255 - Int.ceil (255 * t) := by
    rw [quantize_eq_floor (by linarith) (by linarith), Int.toNat_of_nonneg hb, hc]
  have hB : ((quantize t : ℤ)) = Int.floor (255 * t) := by
    rw [quantize_eq_floor h0 h1, Int.toNat_of_nonneg ha]
  have hd := Int.floor_le_ceil (255 * t)
  have he := Int.ceil_le_floor_add_one (255 * t)
  rw [hA, hB]
  omega

/-- C5: for every input, bias, contrast and stretch, calling `normalize` with
inverted bounds `(vmin, vmax) = (1, 0)` yields, element-wise, `255` minus the
result with bounds `(0, 1)`, up to the rounding of the final integer
quantization (the two sides differ by at most one count). -/
theorem normalize_inverted_bounds (x : List ℝ) (bias contrast : ℝ)
    (stretch : String) (y₁ y₂ : List ℕ)
    (h1 : normalize x 1 0 bias contrast stretch = Except.ok y₁)
    (h2 : normalize x 0 1 bias contrast stretch = Except.ok y₂) :
    y₁.length = y₂.length ∧
    ∀ i (hi1 : i < y₁.length) (hi2 : i < y₂.length),
      ((y₁.get ⟨i, hi1⟩ : ℤ) - (255 - (y₂.get ⟨i, hi2⟩ : ℤ))).natAbs ≤ 1 := by
  cases hl : warpers.lookup stretch with
  | none => simp [normalize, hl] at h1
  | some w =>
    have hmem : stretch ∈ validStretches := by
      by_contra hc
      rw [warpers_lookup_eq_none hc] at hl
      exact Option.noConfusion hl
    obtain ⟨w', hw', hwmem⟩ := warpers_lookup_of_mem hmem
    rw [hl] at hw'
    have hww : w' = w := Option.some.inj hw'.symm
    rw [hww] at hwmem
    have e1 : dispatchLo (1:ℝ) 0 = 0 := by simp [dispatchLo]
    have e2 : dispatchHi (1:ℝ) 0 = 1 := by simp [dispatchHi]
    have e3 : dispatchLo (0:ℝ) 1 = 0 := by simp [dispatchLo]
    have e4 : dispatchHi (0:ℝ) 1 = 1 := by simp [dispatchHi]
    have hc1 : ((0:ℝ) ≤ 1) = True := by norm_num
    have hc2 : ((1:ℝ) ≤ 0) = False := by norm_num
    simp only [normalize, hl, e1, e2, e3, e4, hc1, hc2, if_true, if_false,
      Except.ok.injEq] at h1 h2
    subst h1
    subst h2
    rw [List.map_map]
    constructor
    · simp
    · intro i hi1 hi2
      have hix : i < x.length := by simpa using hi1
      simp only [List.get_eq_getElem, List.getElem_map]
      have hmem2 := warp_mem_all (stretch, w) hwmem (x.get ⟨i, hix⟩) 0 1 bias contrast
      have h0 : 0 ≤ w (x.get ⟨i, hix⟩) 0 1 bias contrast := hmem2.1
      have h1' : w (x.get ⟨i, hix⟩) 0 1 bias contrast ≤ 1 := hmem2.2
      simpa using quantize_one_sub h0 h1'

end ToastyNorm

namespace ToastyNorm

theorem normalize_linear_fwd_eval :
    normalize [(0:ℝ)] 0 1 0.5 1 "linear" = Except.ok [0] := by
  have hw : warpers.lookup "linear" = some linear_warp := rfl
  have hinv : ¬ ((1:ℝ) ≤ 0) := by norm_num
  have hlo : dispatchLo (0:ℝ) 1 = 0 := by simp [dispatchLo]
  have hhi : dispatchHi (0:ℝ) 1 = 1 := by simp [dispatchHi]
  simp only [normalize, hw, List.map, if_neg hinv, hlo, hhi,
    linear_warp_eval_zero, quantize_zero]

theorem normalize_linear_inv_eval :
    normalize [(0:ℝ)] 1 0 0.5 1 "linear" = Except.ok [255] := by
  have hw : warpers.lookup "linear" = some linear_warp := rfl
  have hinv : (0:ℝ) ≤ 1 := by norm_num
  have hlo : dispatchLo (1:ℝ) 0 = 0 := by simp [dispatchLo]
  have hhi : dispatchHi (1:ℝ) 0 = 1 := by simp [dispatchHi]
  simp only [normalize, hw, List.map, if_pos hinv, hlo, hhi,
    linear_warp_eval_zero, sub_zero, quantize_one]

/-- C5 witness. -/
theorem normalize_inverted_bounds_witness :
    normalize [(0:ℝ)] 1 0 0.5 1 "linear" = Except.ok [255] ∧
    normalize [(0:ℝ)] 0 1 0.5 1 "linear" = Except.ok [0] ∧
    (([255] : List ℕ).length = ([0] : List ℕ).length ∧
      ∀ i (hi1 : i < ([255] : List ℕ).length) (hi2 : i < ([0] : List ℕ).length),
        ((([255] : List ℕ).get ⟨i, hi1⟩ : ℤ) -
          (255 - (([0] : List ℕ).get ⟨i, hi2⟩ : ℤ))).natAbs ≤ 1) :=
  ⟨normalize_linear_inv_eval, normalize_linear_fwd_eval,
    normalize_inverted_bounds [(0:ℝ)] 0.5 1 "linear" [255] [0]
      normalize_linear_inv_eval normalize_linear_fwd_eval⟩

end ToastyNorm
